import Mathlib

/-!
Verification of the Black-Scholes option pricer in
`src/Black-Scholes-Model.py` (function `black_scholes_option_price`).

The Python core is embedded shallowly over the real numbers:
- Python floats become `ℝ`;
- the fallible numeric primitives (`math.log`, `math.sqrt`, float division)
  become `Except`-valued functions that raise exactly where Python raises
  (`ValueError: math domain error` for a logarithm of a non-positive number
  or a square root of a negative number, `ZeroDivisionError` for division
  by zero);
- `raise ValueError(...)` becomes `Except.error (PyError.valueError ...)`.
-/

open MeasureTheory Set Filter Topology

/-- Errors the Python core can raise: `ValueError` (with its message) and
`ZeroDivisionError`. -/
inductive PyError where
  | valueError (msg : String)
  | zeroDivisionError
  deriving DecidableEq

/-- The `ValueError` that Python's `math` module raises on a domain fault. -/
def mathDomainError : PyError := PyError.valueError "math domain error"

/-- The `ValueError` raised by the source on an unrecognized option type
(source line 47). -/
def optionTypeError : PyError :=
  PyError.valueError "option_type must be \x27call\x27 or \x27put\x27"

/-- Python float division: raises `ZeroDivisionError` on a zero divisor. -/
noncomputable def pyDiv (a b : ℝ) : Except PyError ℝ :=
  if b = 0 then Except.error PyError.zeroDivisionError else Except.ok (a / b)

/-- Python `math.log`: raises `ValueError: math domain error` on a
non-positive argument. -/
noncomputable def pyLog (x : ℝ) : Except PyError ℝ :=
  if 0 < x then Except.ok (Real.log x) else Except.error mathDomainError

/-- Python `math.sqrt`: raises `ValueError: math domain error` on a
negative argument. -/
noncomputable def pySqrt (x : ℝ) : Except PyError ℝ :=
  if 0 ≤ x then Except.ok (Real.sqrt x) else Except.error mathDomainError

/-- The standard normal probability density `exp(-t²/2)/√(2π)`. -/
noncomputable def gauss_pdf (t : ℝ) : ℝ :=
  Real.exp (-t ^ 2 / 2) / Real.sqrt (2 * Real.pi)

/-- Modelled from the spec: the source calls `scipy.stats.norm.cdf`, a
library function whose code is not part of this repository.  The spec's
Normal CDF Evaluator contract describes it as the standard normal
cumulative distribution function, which we take exactly: the integral of
the standard normal density over `(-∞, x]`. -/
noncomputable def norm_cdf (x : ℝ) : ℝ :=
  ∫ t in Iic x, gauss_pdf t

/-- The `d1` term of the source (lines 29-33):
`(log(S/K) + (r + 0.5·σ²)·T) / (σ·√T)`. -/
noncomputable def d1 (S K T r σ : ℝ) : ℝ :=
  (Real.log (S / K) + (r + 0.5 * σ ^ 2) * T) / (σ * Real.sqrt T)

/-- The `d2` term of the source (line 34): `d1 - σ·√T`. -/
noncomputable def d2 (S K T r σ : ℝ) : ℝ :=
  d1 S K T r σ - σ * Real.sqrt T

/-- Shallow embedding of `black_scholes_option_price` (source lines 7-49),
following the source statement by statement: the quotient `S/K`, its
logarithm, the numerator, `σ·√T`, the quotient `d1`, then `d2`, then the
dispatch on the `option_type` string with default `"call"`. -/
noncomputable def black_scholes_option_price
    (current_stock_price strike_price time_to_expiration_years
      risk_free_rate volatility : ℝ)
    (option_type : String := "call") : Except PyError ℝ := do
  let s_over_k ← pyDiv current_stock_price strike_price
  let log_sk ← pyLog s_over_k
  let numerator := log_sk +
    (risk_free_rate + 0.5 * volatility ^ 2) * time_to_expiration_years
  let sqrt_t ← pySqrt time_to_expiration_years
  let denominator := volatility * sqrt_t
  let d1v ← pyDiv numerator denominator
  let d2v := d1v - volatility * sqrt_t
  if option_type = "call" then
    return current_stock_price * norm_cdf d1v -
      strike_price *
        Real.exp (-risk_free_rate * time_to_expiration_years) * norm_cdf d2v
  else if option_type = "put" then
    return strike_price *
        Real.exp (-risk_free_rate * time_to_expiration_years) *
          norm_cdf (-d2v) -
      current_stock_price * norm_cdf (-d1v)
  else
    Except.error optionTypeError

lemma ok_bind {α β : Type} (a : α) (f : α → Except PyError β) :
    (Except.ok a >>= f : Except PyError β) = f a := rfl

lemma error_bind {α β : Type} (e : PyError) (f : α → Except PyError β) :
    (Except.error e >>= f : Except PyError β) = Except.error e := rfl

lemma bs_eval_num_ok (S K T r σ : ℝ) (hK : K ≠ 0) (hSK : 0 < S / K)
    (hT : 0 ≤ T) (hden : σ * Real.sqrt T ≠ 0) (ot : String) :
    black_scholes_option_price S K T r σ ot =
      if ot = "call" then
        Except.ok (S * norm_cdf (d1 S K T r σ) -
          K * Real.exp (-r * T) * norm_cdf (d2 S K T r σ))
      else if ot = "put" then
        Except.ok (K * Real.exp (-r * T) * norm_cdf (-d2 S K T r σ) -
          S * norm_cdf (-d1 S K T r σ))
      else Except.error optionTypeError := by
  unfold black_scholes_option_price pyDiv pyLog pySqrt
  simp only [hK, hSK, hT, hden, if_true, if_false, ite_true, ite_false,
    ok_bind, error_bind]
  simp only [d1, d2]
  rfl

lemma bs_eval_of_valid (S K T r σ : ℝ) (hS : 0 < S) (hK : 0 < K)
    (hT : 0 < T) (hσ : 0 < σ) (ot : String) :
    black_scholes_option_price S K T r σ ot =
      if ot = "call" then
        Except.ok (S * norm_cdf (d1 S K T r σ) -
          K * Real.exp (-r * T) * norm_cdf (d2 S K T r σ))
      else if ot = "put" then
        Except.ok (K * Real.exp (-r * T) * norm_cdf (-d2 S K T r σ) -
          S * norm_cdf (-d1 S K T r σ))
      else Except.error optionTypeError :=
  bs_eval_num_ok S K T r σ hK.ne' (div_pos hS hK) hT.le
    (mul_pos hσ (Real.sqrt_pos.mpr hT)).ne' ot

lemma bs_err_strike_zero (S T r σ : ℝ) (ot : String) :
    black_scholes_option_price S 0 T r σ ot =
      Except.error PyError.zeroDivisionError := by
  unfold black_scholes_option_price pyDiv
  rw [if_pos rfl]
  rfl

lemma bs_err_log_domain (S K T r σ : ℝ) (hK : K ≠ 0) (hSK : ¬ 0 < S / K)
    (ot : String) :
    black_scholes_option_price S K T r σ ot = Except.error mathDomainError := by
  unfold black_scholes_option_price pyDiv pyLog
  simp only [hK, hSK, if_true, if_false, ite_true, ite_false, ok_bind, error_bind]

lemma bs_err_sqrt_domain (S K T r σ : ℝ) (hK : K ≠ 0) (hSK : 0 < S / K)
    (hT : ¬ 0 ≤ T) (ot : String) :
    black_scholes_option_price S K T r σ ot = Except.error mathDomainError := by
  unfold black_scholes_option_price pyDiv pyLog pySqrt
  simp only [hK, hSK, hT, if_true, if_false, ite_true, ite_false, ok_bind, error_bind]

lemma bs_err_div_zero (S K T r σ : ℝ) (hK : K ≠ 0) (hSK : 0 < S / K)
    (hT : 0 ≤ T) (hden : σ * Real.sqrt T = 0) (ot : String) :
    black_scholes_option_price S K T r σ ot =
      Except.error PyError.zeroDivisionError := by
  unfold black_scholes_option_price pyDiv pyLog pySqrt
  simp only [hK, hSK, hT, hden, if_true, if_false, ite_true, ite_false,
    ok_bind, error_bind]

lemma bs_call_eq (S K T r σ : ℝ) (hS : 0 < S) (hK : 0 < K)
    (hT : 0 < T) (hσ : 0 < σ) :
    black_scholes_option_price S K T r σ "call" =
      Except.ok (S * norm_cdf (d1 S K T r σ) -
        K * Real.exp (-r * T) * norm_cdf (d2 S K T r σ)) := by
  rw [bs_eval_of_valid S K T r σ hS hK hT hσ "call"]
  simp

lemma bs_put_eq (S K T r σ : ℝ) (hS : 0 < S) (hK : 0 < K)
    (hT : 0 < T) (hσ : 0 < σ) :
    black_scholes_option_price S K T r σ "put" =
      Except.ok (K * Real.exp (-r * T) * norm_cdf (-d2 S K T r σ) -
        S * norm_cdf (-d1 S K T r σ)) := by
  rw [bs_eval_of_valid S K T r σ hS hK hT hσ "put"]
  simp

lemma gauss_pdf_pos (t : ℝ) : 0 < gauss_pdf t :=
  div_pos (Real.exp_pos _) (Real.sqrt_pos.mpr (by positivity))

lemma one_le_sqrt_two_pi : (1:ℝ) ≤ Real.sqrt (2 * Real.pi) := by
  rw [show (1:ℝ) = Real.sqrt 1 from Real.sqrt_one.symm]
  exact Real.sqrt_le_sqrt (by nlinarith [Real.pi_gt_d6])

lemma gauss_pdf_le_one (t : ℝ) : gauss_pdf t ≤ 1 := by
  unfold gauss_pdf
  rw [div_le_one (lt_of_lt_of_le one_pos one_le_sqrt_two_pi)]
  calc Real.exp (-t ^ 2 / 2) ≤ 1 := by
        rw [Real.exp_le_one_iff]
        nlinarith [sq_nonneg t]
    _ ≤ Real.sqrt (2 * Real.pi) := one_le_sqrt_two_pi

lemma continuous_gauss_pdf : Continuous gauss_pdf :=
  (Real.continuous_exp.comp ((continuous_pow 2).neg.div_const 2)).div_const _

lemma integrable_gauss_exp : Integrable (fun t : ℝ => Real.exp (-t ^ 2 / 2)) := by
  have heq : (fun t : ℝ => Real.exp (-t ^ 2 / 2)) =
      fun t : ℝ => Real.exp (-((1:ℝ)/2) * t ^ 2) := by
    funext t; congr 1; ring
  rw [heq]
  exact integrable_exp_neg_mul_sq (by norm_num)

lemma integrable_gauss_pdf : Integrable gauss_pdf :=
  integrable_gauss_exp.div_const _

lemma integral_gauss_exp :
    ∫ t : ℝ, Real.exp (-t ^ 2 / 2) = Real.sqrt (2 * Real.pi) := by
  have heq : (fun t : ℝ => Real.exp (-t ^ 2 / 2)) =
      fun t : ℝ => Real.exp (-((1:ℝ)/2) * t ^ 2) := by
    funext t; congr 1; ring
  rw [heq, integral_gaussian]
  congr 1; ring

lemma integral_gauss_pdf : ∫ t : ℝ, gauss_pdf t = 1 := by
  unfold gauss_pdf
  rw [integral_div, integral_gauss_exp, div_self]
  positivity

lemma gauss_pdf_even (t : ℝ) : gauss_pdf (-t) = gauss_pdf t := by
  unfold gauss_pdf; rw [neg_sq]

lemma norm_cdf_nonneg (x : ℝ) : 0 ≤ norm_cdf x :=
  setIntegral_nonneg measurableSet_Iic fun t _ => (gauss_pdf_pos t).le

lemma norm_cdf_le_one (x : ℝ) : norm_cdf x ≤ 1 := by
  have h := setIntegral_le_integral (s := Iic x) integrable_gauss_pdf
    (ae_of_all _ fun t => (gauss_pdf_pos t).le)
  rw [integral_gauss_pdf] at h
  exact h

lemma norm_cdf_reflect (x : ℝ) : norm_cdf (-x) = 1 - norm_cdf x := by
  have h1 : norm_cdf (-x) = ∫ t in Ioi x, gauss_pdf t := by
    calc norm_cdf (-x) = ∫ t in Iic (-x), gauss_pdf (-t) := by
          unfold norm_cdf; simp_rw [gauss_pdf_even]
      _ = ∫ t in Ioi (-(-x)), gauss_pdf t := integral_comp_neg_Iic (-x) gauss_pdf
      _ = ∫ t in Ioi x, gauss_pdf t := by rw [neg_neg]
  have h2 := intervalIntegral.integral_Iic_add_Ioi (b := x) (μ := volume)
    integrable_gauss_pdf.integrableOn integrable_gauss_pdf.integrableOn
  rw [integral_gauss_pdf] at h2
  rw [h1]
  unfold norm_cdf
  linarith [h2]

lemma norm_cdf_zero : norm_cdf 0 = 1/2 := by
  have h := norm_cdf_reflect 0
  rw [neg_zero] at h
  linarith

lemma norm_cdf_sub (a b : ℝ) :
    norm_cdf b - norm_cdf a = ∫ t in a..b, gauss_pdf t := by
  unfold norm_cdf
  exact intervalIntegral.integral_Iic_sub_Iic
    integrable_gauss_pdf.integrableOn integrable_gauss_pdf.integrableOn

lemma hasDerivAt_norm_cdf (x : ℝ) : HasDerivAt norm_cdf (gauss_pdf x) x := by
  have key : norm_cdf = fun u => norm_cdf 0 + ∫ t in (0:ℝ)..u, gauss_pdf t := by
    funext u
    have h := norm_cdf_sub 0 u
    linarith
  rw [key]
  exact ((continuous_gauss_pdf.integral_hasStrictDerivAt 0 x).hasDerivAt).const_add _

lemma integrable_mul_gauss :
    Integrable (fun t : ℝ => t * Real.exp (-t ^ 2 / 2)) := by
  have heq : (fun t : ℝ => t * Real.exp (-t ^ 2 / 2)) =
      fun t : ℝ => t * Real.exp (-((1:ℝ)/2) * t ^ 2) := by
    funext t
    rw [show -t ^ 2 / 2 = -((1:ℝ)/2) * t ^ 2 by ring]
  rw [heq]
  exact integrable_mul_exp_neg_mul_sq (by norm_num)

lemma integral_Iic_mul_gauss (x : ℝ) :
    ∫ t in Iic x, t * Real.exp (-t ^ 2 / 2) = -Real.exp (-x ^ 2 / 2) := by
  have hderiv : ∀ t ∈ Iic x, HasDerivAt (fun u : ℝ => -Real.exp (-u ^ 2 / 2))
      (t * Real.exp (-t ^ 2 / 2)) t := by
    intro t _
    have h1 : HasDerivAt (fun u : ℝ => -u ^ 2 / 2) (-t) t := by
      have h := ((hasDerivAt_pow 2 t).div_const 2).neg
      simp only [pow_one] at h
      convert h using 1
      · funext u; ring
      · ring
    have h2 := (h1.exp).neg
    convert h2 using 1
    ring
  have htend : Tendsto (fun u : ℝ => -Real.exp (-u ^ 2 / 2)) atBot (𝓝 0) := by
    have hb : Tendsto (fun u : ℝ => -u ^ 2 / 2) atBot atBot := by
      apply tendsto_atBot_mono' atBot ?_ tendsto_id
      filter_upwards [eventually_le_atBot (-2 : ℝ)] with u hu
      simp only [id_eq]
      nlinarith [sq_nonneg (u + 2)]
    have hc := Real.tendsto_exp_atBot.comp hb
    have hd := hc.neg
    rwa [neg_zero] at hd
  have h := integral_Iic_of_hasDerivAt_of_tendsto' hderiv
    integrable_mul_gauss.integrableOn htend
  rw [h]
  ring

lemma norm_cdf_mills {x : ℝ} (hx : x < 0) :
    norm_cdf x ≤ gauss_pdf x / (-x) := by
  have hrw : (fun t : ℝ => (t / x) * gauss_pdf t) =
      fun t : ℝ => (1/(x * Real.sqrt (2 * Real.pi))) * (t * Real.exp (-t ^ 2 / 2)) := by
    funext t
    unfold gauss_pdf
    have hs : Real.sqrt (2 * Real.pi) ≠ 0 := by positivity
    field_simp
  have hmono : ∀ t ∈ Iic x, gauss_pdf t ≤ (t / x) * gauss_pdf t := by
    intro t ht
    have h1 : 1 ≤ t / x := (one_le_div_of_neg hx).mpr ht
    exact le_mul_of_one_le_left (gauss_pdf_pos t).le h1
  have hint : IntegrableOn (fun t : ℝ => (t / x) * gauss_pdf t) (Iic x) volume := by
    rw [hrw]
    exact (integrable_mul_gauss.const_mul _).integrableOn
  have hle := setIntegral_mono_on integrable_gauss_pdf.integrableOn hint
    measurableSet_Iic hmono
  have hstep : ∫ t in Iic x, (t / x) * gauss_pdf t = gauss_pdf x / (-x) := by
    rw [hrw, integral_mul_left, integral_Iic_mul_gauss]
    unfold gauss_pdf
    have hs : Real.sqrt (2 * Real.pi) ≠ 0 := by positivity
    field_simp
    ring
  rw [hstep] at hle
  exact hle

lemma gauss_pdf_shift (u s : ℝ) :
    gauss_pdf (u + s/2) = Real.exp (-(u*s)) * gauss_pdf (u - s/2) := by
  unfold gauss_pdf
  have h : Real.exp (-(u + s/2) ^ 2 / 2) =
      Real.exp (-(u*s)) * Real.exp (-(u - s/2) ^ 2 / 2) := by
    rw [← Real.exp_add]; congr 1; ring
  rw [h]; ring

lemma key_hasDerivAt (s u : ℝ) :
    HasDerivAt (fun v => norm_cdf (v + s/2) - Real.exp (-(v*s)) * norm_cdf (v - s/2))
      (s * (Real.exp (-(u*s)) * norm_cdf (u - s/2))) u := by
  have h1 : HasDerivAt (fun v : ℝ => norm_cdf (v + s/2)) (gauss_pdf (u + s/2)) u := by
    have h := (hasDerivAt_norm_cdf (u + s/2)).comp u ((hasDerivAt_id u).add_const (s/2))
    simpa using h
  have h3 : HasDerivAt (fun v : ℝ => norm_cdf (v - s/2)) (gauss_pdf (u - s/2)) u := by
    have h := (hasDerivAt_norm_cdf (u - s/2)).comp u ((hasDerivAt_id u).sub_const (s/2))
    simpa using h
  have h2 : HasDerivAt (fun v : ℝ => Real.exp (-(v*s))) (-s * Real.exp (-(u*s))) u := by
    have ha : HasDerivAt (fun v : ℝ => -(v*s)) (-s) u := by
      simpa using ((hasDerivAt_id u).mul_const s).neg
    have hb := ha.exp
    convert hb using 1
    ring
  have h5 := h1.sub (h2.mul h3)
  convert h5 using 1
  rw [gauss_pdf_shift u s]
  ring

lemma key_mono {s : ℝ} (hs : 0 ≤ s) :
    Monotone (fun v => norm_cdf (v + s/2) - Real.exp (-(v*s)) * norm_cdf (v - s/2)) := by
  apply monotone_of_deriv_nonneg
  · exact fun u => (key_hasDerivAt s u).differentiableAt
  · intro u
    rw [(key_hasDerivAt s u).deriv]
    exact mul_nonneg hs (mul_nonneg (Real.exp_pos _).le (norm_cdf_nonneg _))

lemma tendsto_shift_cdf_atBot (c : ℝ) :
    Tendsto (fun v : ℝ => norm_cdf (v + c)) atBot (𝓝 0) := by
  apply squeeze_zero' (Filter.Eventually.of_forall fun v => norm_cdf_nonneg _)
    (g := fun v : ℝ => 1 / (-(v + c)))
  · filter_upwards [Filter.eventually_lt_atBot (-c)] with v hv
    have hneg : v + c < 0 := by linarith
    calc norm_cdf (v + c) ≤ gauss_pdf (v + c) / (-(v + c)) := norm_cdf_mills hneg
      _ ≤ 1 / (-(v + c)) :=
        (div_le_div_iff_of_pos_right (by linarith)).mpr (gauss_pdf_le_one _)
  · have h1 : Tendsto (fun v : ℝ => -(v + c)) atBot atTop := by
      have h := tendsto_neg_atBot_atTop.comp
        (tendsto_atBot_add_const_right atBot c tendsto_id)
      exact h
    simpa [one_div] using h1.inv_tendsto_atTop

lemma tendsto_term2 (s : ℝ) :
    Tendsto (fun v : ℝ => Real.exp (-(v*s)) * norm_cdf (v - s/2)) atBot (𝓝 0) := by
  apply squeeze_zero' (Filter.Eventually.of_forall fun v =>
      mul_nonneg (Real.exp_pos _).le (norm_cdf_nonneg _))
    (g := fun v : ℝ => 1 / (-(v - s/2)))
  · filter_upwards [Filter.eventually_lt_atBot (s/2)] with v hv
    have hneg : v - s/2 < 0 := by linarith
    have h1 : norm_cdf (v - s/2) ≤ gauss_pdf (v - s/2) / (-(v - s/2)) :=
      norm_cdf_mills hneg
    calc Real.exp (-(v*s)) * norm_cdf (v - s/2)
        ≤ Real.exp (-(v*s)) * (gauss_pdf (v - s/2) / (-(v - s/2))) :=
          mul_le_mul_of_nonneg_left h1 (Real.exp_pos _).le
      _ = gauss_pdf (v + s/2) / (-(v - s/2)) := by
          rw [gauss_pdf_shift v s]; ring
      _ ≤ 1 / (-(v - s/2)) :=
          (div_le_div_iff_of_pos_right (by linarith)).mpr (gauss_pdf_le_one _)
  · have h1 : Tendsto (fun v : ℝ => -(v - s/2)) atBot atTop := by
      have h := tendsto_neg_atBot_atTop.comp
        (tendsto_atBot_add_const_right atBot (-(s/2)) tendsto_id)
      have heq : (fun v : ℝ => -(v + -(s/2))) = fun v : ℝ => -(v - s/2) := by
        funext v; ring
      rwa [show (Neg.neg ∘ fun v : ℝ => id v + -(s/2)) = fun v : ℝ => -(v + -(s/2))
        from rfl, heq] at h
    simpa [one_div] using h1.inv_tendsto_atTop

lemma norm_cdf_key_ineq {s : ℝ} (hs : 0 ≤ s) (u : ℝ) :
    Real.exp (-(u*s)) * norm_cdf (u - s/2) ≤ norm_cdf (u + s/2) := by
  have hmono := key_mono hs
  have ht : Tendsto
      (fun v => norm_cdf (v + s/2) - Real.exp (-(v*s)) * norm_cdf (v - s/2))
      atBot (𝓝 0) := by
    have h := (tendsto_shift_cdf_atBot (s/2)).sub (tendsto_term2 s)
    simpa using h
  have h0 : (0:ℝ) ≤ norm_cdf (u + s/2) - Real.exp (-(u*s)) * norm_cdf (u - s/2) := by
    apply le_of_tendsto ht
    filter_upwards [Filter.eventually_le_atBot u] with v hv
    exact hmono hv
  linarith

lemma d1_mul (S K T r σ : ℝ) (hden : σ * Real.sqrt T ≠ 0) :
    d1 S K T r σ * (σ * Real.sqrt T) =
      Real.log (S / K) + (r + 0.5 * σ ^ 2) * T := by
  unfold d1
  exact div_mul_cancel₀ _ hden

lemma sq_sigma_sqrtT {T σ : ℝ} (hT : 0 ≤ T) :
    (σ * Real.sqrt T) ^ 2 = σ ^ 2 * T := by
  rw [mul_pow, Real.sq_sqrt hT]

lemma u_mul_s (S K T r σ : ℝ) (hT : 0 ≤ T) (hden : σ * Real.sqrt T ≠ 0) :
    (d1 S K T r σ - (σ * Real.sqrt T) / 2) * (σ * Real.sqrt T) =
      Real.log (S / K) + r * T := by
  have h1 := d1_mul S K T r σ hden
  have h2 := sq_sigma_sqrtT (T := T) (σ := σ) hT
  linear_combination h1 - h2 / 2

lemma exp_neg_us (S K T r σ : ℝ) (hS : 0 < S) (hK : 0 < K) (hT : 0 ≤ T)
    (hden : σ * Real.sqrt T ≠ 0) :
    Real.exp (-((d1 S K T r σ - (σ * Real.sqrt T) / 2) * (σ * Real.sqrt T))) =
      (K / S) * Real.exp (-(r * T)) := by
  rw [u_mul_s S K T r σ hT hden, neg_add, Real.exp_add,
    Real.exp_neg, Real.exp_log (div_pos hS hK), inv_div]

lemma exp_pos_us (S K T r σ : ℝ) (hS : 0 < S) (hK : 0 < K) (hT : 0 ≤ T)
    (hden : σ * Real.sqrt T ≠ 0) :
    Real.exp ((d1 S K T r σ - (σ * Real.sqrt T) / 2) * (σ * Real.sqrt T)) =
      (S / K) * Real.exp (r * T) := by
  rw [u_mul_s S K T r σ hT hden, Real.exp_add, Real.exp_log (div_pos hS hK)]

lemma call_formula_nonneg (S K T r σ : ℝ) (hS : 0 < S) (hK : 0 < K)
    (hT : 0 < T) (hσ : 0 < σ) :
    0 ≤ S * norm_cdf (d1 S K T r σ) -
      K * Real.exp (-r * T) * norm_cdf (d2 S K T r σ) := by
  have hs : 0 < σ * Real.sqrt T := mul_pos hσ (Real.sqrt_pos.mpr hT)
  have hkey := norm_cdf_key_ineq hs.le (d1 S K T r σ - (σ * Real.sqrt T) / 2)
  rw [show d1 S K T r σ - (σ * Real.sqrt T) / 2 + (σ * Real.sqrt T) / 2 =
    d1 S K T r σ by ring] at hkey
  rw [show d1 S K T r σ - (σ * Real.sqrt T) / 2 - (σ * Real.sqrt T) / 2 =
    d2 S K T r σ by unfold d2; ring] at hkey
  rw [exp_neg_us S K T r σ hS hK hT.le hs.ne'] at hkey
  have h2 := mul_le_mul_of_nonneg_left hkey hS.le
  have h3 : S * (K / S * Real.exp (-(r * T)) * norm_cdf (d2 S K T r σ)) =
      K * Real.exp (-r * T) * norm_cdf (d2 S K T r σ) := by
    field_simp
  rw [h3] at h2
  linarith

lemma put_formula_nonneg (S K T r σ : ℝ) (hS : 0 < S) (hK : 0 < K)
    (hT : 0 < T) (hσ : 0 < σ) :
    0 ≤ K * Real.exp (-r * T) * norm_cdf (-d2 S K T r σ) -
      S * norm_cdf (-d1 S K T r σ) := by
  have hs : 0 < σ * Real.sqrt T := mul_pos hσ (Real.sqrt_pos.mpr hT)
  have hkey := norm_cdf_key_ineq hs.le (-(d1 S K T r σ - (σ * Real.sqrt T) / 2))
  rw [show -(d1 S K T r σ - (σ * Real.sqrt T) / 2) + (σ * Real.sqrt T) / 2 =
    -d2 S K T r σ by unfold d2; ring] at hkey
  rw [show -(d1 S K T r σ - (σ * Real.sqrt T) / 2) - (σ * Real.sqrt T) / 2 =
    -d1 S K T r σ by ring] at hkey
  rw [show -(-(d1 S K T r σ - (σ * Real.sqrt T) / 2) * (σ * Real.sqrt T)) =
    (d1 S K T r σ - (σ * Real.sqrt T) / 2) * (σ * Real.sqrt T) by ring] at hkey
  rw [exp_pos_us S K T r σ hS hK hT.le hs.ne'] at hkey
  have hpos : 0 < K * Real.exp (-r * T) := mul_pos hK (Real.exp_pos _)
  have h2 := mul_le_mul_of_nonneg_left hkey hpos.le
  have h3 : K * Real.exp (-r * T) * (S / K * Real.exp (r * T) *
      norm_cdf (-d1 S K T r σ)) = S * norm_cdf (-d1 S K T r σ) := by
    rw [neg_mul, Real.exp_neg]
    field_simp
    ring
  rw [h3] at h2
  linarith

lemma parity_formula (S K T r σ : ℝ) :
    (S * norm_cdf (d1 S K T r σ) -
        K * Real.exp (-r * T) * norm_cdf (d2 S K T r σ)) -
      (K * Real.exp (-r * T) * norm_cdf (-d2 S K T r σ) -
        S * norm_cdf (-d1 S K T r σ)) = S - K * Real.exp (-r * T) := by
  rw [norm_cdf_reflect (d1 S K T r σ), norm_cdf_reflect (d2 S K T r σ)]
  ring

/-- C1 (amended): the source performs no parameter validation and has no
typed `InvalidParameter` failure.  On an input with `S ≤ 0`, `K ≤ 0`,
`T ≤ 0` or `σ ≤ 0` the computation either raises an untyped numeric error
while computing `d1` (`ZeroDivisionError`, or the `ValueError: math domain
error` of `math.log`/`math.sqrt`), or — whenever `S/K > 0`, `T ≥ 0` and
`σ·√T ≠ 0`, e.g. for `S < 0 ∧ K < 0` or for `σ < 0` — it proceeds and
silently returns an unvalidated number (or the option-type `ValueError`
when the selector is also invalid). -/
theorem no_parameter_validation (S K T r σ : ℝ) (ot : String)
    (hbad : S ≤ 0 ∨ K ≤ 0 ∨ T ≤ 0 ∨ σ ≤ 0) :
    black_scholes_option_price S K T r σ ot =
        Except.error PyError.zeroDivisionError ∨
    black_scholes_option_price S K T r σ ot = Except.error mathDomainError ∨
    ((∃ p, black_scholes_option_price S K T r σ ot = Except.ok p) ∨
      black_scholes_option_price S K T r σ ot = Except.error optionTypeError) := by
  by_cases hK : K = 0
  · subst hK
    exact Or.inl (bs_err_strike_zero S T r σ ot)
  by_cases hSK : 0 < S / K
  · by_cases hT0 : 0 ≤ T
    · by_cases hden : σ * Real.sqrt T = 0
      · exact Or.inl (bs_err_div_zero S K T r σ hK hSK hT0 hden ot)
      · right; right
        have h := bs_eval_num_ok S K T r σ hK hSK hT0 hden ot
        by_cases hc : ot = "call"
        · rw [if_pos hc] at h
          exact Or.inl ⟨_, h⟩
        · rw [if_neg hc] at h
          by_cases hp : ot = "put"
          · rw [if_pos hp] at h
            exact Or.inl ⟨_, h⟩
          · rw [if_neg hp] at h
            exact Or.inr h
    · exact Or.inr (Or.inl (bs_err_sqrt_domain S K T r σ hK hSK hT0 ot))
  · exact Or.inr (Or.inl (bs_err_log_domain S K T r σ hK hSK ot))

/-- Witness for C1 at the concrete input `S = 0`. -/
theorem no_parameter_validation_witness :
    ((0:ℝ) ≤ 0 ∨ (1:ℝ) ≤ 0 ∨ (1:ℝ) ≤ 0 ∨ (1:ℝ) ≤ 0) ∧
    (black_scholes_option_price 0 1 1 0 1 "call" =
        Except.error PyError.zeroDivisionError ∨
     black_scholes_option_price 0 1 1 0 1 "call" = Except.error mathDomainError ∨
     ((∃ p, black_scholes_option_price 0 1 1 0 1 "call" = Except.ok p) ∨
       black_scholes_option_price 0 1 1 0 1 "call" =
         Except.error optionTypeError)) :=
  ⟨Or.inl le_rfl, no_parameter_validation 0 1 1 0 1 "call" (Or.inl le_rfl)⟩

/-- Counterexample to C1 as stated: at `S = -1`, `K = -2`, `T = 1`, `r = 0`,
`σ = 1` (both spot and strike non-positive) the operation does not fail at
all — it silently returns a number. -/
theorem negative_parameters_price_silently :
    ∃ p, black_scholes_option_price (-1) (-2) 1 0 1 "call" = Except.ok p := by
  have h := bs_eval_num_ok (-1) (-2) 1 0 1 (by norm_num) (by norm_num)
    (by norm_num) (by rw [Real.sqrt_one]; norm_num) "call"
  rw [if_pos rfl] at h
  exact ⟨_, h⟩

/-- C2: for every valid input (`S > 0`, `K > 0`, `T > 0`, `σ > 0`) the
pricing operation computes `d1 = (ln(S/K) + (r + 0.5·σ²)·T)/(σ·√T)` and
`d2 = d1 - σ·√T`, and returns `S·cdf(d1) - K·exp(-r·T)·cdf(d2)` for a call
and `K·exp(-r·T)·cdf(-d2) - S·cdf(-d1)` for a put. -/
theorem pricing_computes_spec_formula (S K T r σ : ℝ) (hS : 0 < S)
    (hK : 0 < K) (hT : 0 < T) (hσ : 0 < σ) :
    d1 S K T r σ =
        (Real.log (S / K) + (r + 0.5 * σ ^ 2) * T) / (σ * Real.sqrt T) ∧
    d2 S K T r σ = d1 S K T r σ - σ * Real.sqrt T ∧
    black_scholes_option_price S K T r σ "call" =
      Except.ok (S * norm_cdf (d1 S K T r σ) -
        K * Real.exp (-r * T) * norm_cdf (d2 S K T r σ)) ∧
    black_scholes_option_price S K T r σ "put" =
      Except.ok (K * Real.exp (-r * T) * norm_cdf (-d2 S K T r σ) -
        S * norm_cdf (-d1 S K T r σ)) :=
  ⟨rfl, rfl, bs_call_eq S K T r σ hS hK hT hσ, bs_put_eq S K T r σ hS hK hT hσ⟩

/-- Witness for C2 at the concrete valid input `S = K = T = σ = 1`, `r = 0`. -/
theorem pricing_computes_spec_formula_witness :
    (0:ℝ) < 1 ∧
    (d1 1 1 1 0 1 =
        (Real.log (1 / 1) + (0 + 0.5 * 1 ^ 2) * 1) / (1 * Real.sqrt 1) ∧
     d2 1 1 1 0 1 = d1 1 1 1 0 1 - 1 * Real.sqrt 1 ∧
     black_scholes_option_price 1 1 1 0 1 "call" =
       Except.ok (1 * norm_cdf (d1 1 1 1 0 1) -
         1 * Real.exp (-0 * 1) * norm_cdf (d2 1 1 1 0 1)) ∧
     black_scholes_option_price 1 1 1 0 1 "put" =
       Except.ok (1 * Real.exp (-0 * 1) * norm_cdf (-d2 1 1 1 0 1) -
         1 * norm_cdf (-d1 1 1 1 0 1))) :=
  ⟨one_pos, pricing_computes_spec_formula 1 1 1 0 1 one_pos one_pos one_pos one_pos⟩

/-- C3 (amended): on inputs whose numeric phase succeeds — in particular on
every valid parameter combination — a selector that is neither `call` nor
`put` makes the operation fail with the option-type `ValueError` and never
return a price. -/
theorem invalid_type_rejected (S K T r σ : ℝ) (hS : 0 < S) (hK : 0 < K)
    (hT : 0 < T) (hσ : 0 < σ) (ot : String) (hc : ot ≠ "call")
    (hp : ot ≠ "put") :
    black_scholes_option_price S K T r σ ot = Except.error optionTypeError ∧
    ∀ p : ℝ, black_scholes_option_price S K T r σ ot ≠ Except.ok p := by
  have h := bs_eval_of_valid S K T r σ hS hK hT hσ ot
  rw [if_neg hc, if_neg hp] at h
  refine ⟨h, fun p hp2 => ?_⟩
  rw [h] at hp2
  exact Except.noConfusion hp2

/-- Witness for C3 at the concrete input with the selector `option`. -/
theorem invalid_type_rejected_witness :
    (0:ℝ) < 1 ∧ ("option" : String) ≠ "call" ∧
    (black_scholes_option_price 1 1 1 0 1 "option" =
        Except.error optionTypeError ∧
      ∀ p : ℝ, black_scholes_option_price 1 1 1 0 1 "option" ≠ Except.ok p) :=
  ⟨one_pos, by decide,
    invalid_type_rejected 1 1 1 0 1 one_pos one_pos one_pos one_pos "option"
      (by decide) (by decide)⟩

/-- Counterexample to C3 as stated: at `S = -1` (an invalid parameter) with
the invalid selector `foo`, the operation fails with the math-domain
`ValueError` raised while computing `d1`, not with the option-type error. -/
theorem invalid_type_masked_by_math_error :
    black_scholes_option_price (-1) 100 1 0.05 0.2 "foo" =
        Except.error mathDomainError ∧
    mathDomainError ≠ optionTypeError :=
  ⟨bs_err_log_domain (-1) 100 1 0.05 0.2 (by norm_num) (by norm_num) "foo",
    by decide⟩

/-- C4: put-call parity — for every valid parameter combination the call
price minus the put price equals `S - K·exp(-r·T)` exactly, hence in
particular within the tolerance 1e-6 stated in the spec. -/
theorem put_call_parity (S K T r σ : ℝ) (hS : 0 < S) (hK : 0 < K)
    (hT : 0 < T) (hσ : 0 < σ) :
    ∃ c p : ℝ,
      black_scholes_option_price S K T r σ "call" = Except.ok c ∧
      black_scholes_option_price S K T r σ "put" = Except.ok p ∧
      c - p = S - K * Real.exp (-r * T) ∧
      |c - p - (S - K * Real.exp (-r * T))| ≤ 1e-6 := by
  refine ⟨_, _, bs_call_eq S K T r σ hS hK hT hσ,
    bs_put_eq S K T r σ hS hK hT hσ, parity_formula S K T r σ, ?_⟩
  rw [parity_formula S K T r σ, sub_self, abs_zero]
  norm_num

/-- Witness for C4 at the concrete valid input `S = K = T = σ = 1`, `r = 0`. -/
theorem put_call_parity_witness :
    (0:ℝ) < 1 ∧
    ∃ c p : ℝ,
      black_scholes_option_price 1 1 1 0 1 "call" = Except.ok c ∧
      black_scholes_option_price 1 1 1 0 1 "put" = Except.ok p ∧
      c - p = 1 - 1 * Real.exp (-0 * 1) ∧
      |c - p - (1 - 1 * Real.exp (-0 * 1))| ≤ 1e-6 :=
  ⟨one_pos, put_call_parity 1 1 1 0 1 one_pos one_pos one_pos one_pos⟩

/-- C5: for every valid input and a selector that is `call` or `put`, the
pricing operation returns a price, and that price is non-negative. -/
theorem price_nonneg (S K T r σ : ℝ) (hS : 0 < S) (hK : 0 < K)
    (hT : 0 < T) (hσ : 0 < σ) (ot : String)
    (hot : ot = "call" ∨ ot = "put") :
    ∃ p : ℝ, black_scholes_option_price S K T r σ ot = Except.ok p ∧ 0 ≤ p := by
  rcases hot with h | h <;> subst h
  · exact ⟨_, bs_call_eq S K T r σ hS hK hT hσ,
      call_formula_nonneg S K T r σ hS hK hT hσ⟩
  · exact ⟨_, bs_put_eq S K T r σ hS hK hT hσ,
      put_formula_nonneg S K T r σ hS hK hT hσ⟩

/-- Witness for C5 at the concrete valid input `S = K = T = σ = 1`, `r = 0`. -/
theorem price_nonneg_witness :
    (0:ℝ) < 1 ∧
    ∃ p : ℝ, black_scholes_option_price 1 1 1 0 1 "call" = Except.ok p ∧ 0 ≤ p :=
  ⟨one_pos, price_nonneg 1 1 1 0 1 one_pos one_pos one_pos one_pos "call"
    (Or.inl rfl)⟩

/-- C6: the pricing operation is a pure, deterministic function of its six
arguments — two invocations on identical inputs yield identical results
(the embedding is a function of exactly `S`, `K`, `T`, `r`, `σ` and the
selector: the source reads no other state in the core). -/
theorem pricing_deterministic (S K T r σ : ℝ) (ot : String)
    (S2 K2 T2 r2 σ2 : ℝ) (ot2 : String)
    (h : S = S2 ∧ K = K2 ∧ T = T2 ∧ r = r2 ∧ σ = σ2 ∧ ot = ot2) :
    black_scholes_option_price S K T r σ ot =
      black_scholes_option_price S2 K2 T2 r2 σ2 ot2 := by
  obtain ⟨h1, h2, h3, h4, h5, h6⟩ := h
  rw [h1, h2, h3, h4, h5, h6]

/-- Witness for C6 at a concrete repeated invocation. -/
theorem pricing_deterministic_witness :
    black_scholes_option_price 100 100 1 0.05 0.2 "call" =
      black_scholes_option_price 100 100 1 0.05 0.2 "call" :=
  pricing_deterministic 100 100 1 0.05 0.2 "call" 100 100 1 0.05 0.2 "call"
    ⟨rfl, rfl, rfl, rfl, rfl, rfl⟩

/-- C7: the standard normal CDF evaluator satisfies `cdf(-x) = 1 - cdf(x)`
for every `x`, and in particular `cdf(0) = 0.5`. -/
theorem norm_cdf_symmetry :
    (∀ x : ℝ, norm_cdf (-x) = 1 - norm_cdf x) ∧ norm_cdf 0 = 1/2 :=
  ⟨norm_cdf_reflect, norm_cdf_zero⟩

/-- C9: when the option-type argument is omitted the source defaults it to
the string `call`, so omitting it prices a call. -/
theorem default_option_type_is_call (S K T r σ : ℝ) :
    (black_scholes_option_price S K T r σ : Except PyError ℝ) =
      black_scholes_option_price S K T r σ "call" := rfl

/-- C10: the selector is matched by exact, case-sensitive string comparison
against the two lowercase tags `call` and `put`: on valid parameters every
other string — including `Call`, `PUT`, and strings with surrounding
whitespace — raises the invalid-option-type error; the core does no
trimming or case normalization. -/
theorem option_type_exact_match (S K T r σ : ℝ) (hS : 0 < S) (hK : 0 < K)
    (hT : 0 < T) (hσ : 0 < σ) :
    (∀ ot : String, ot ≠ "call" → ot ≠ "put" →
      black_scholes_option_price S K T r σ ot = Except.error optionTypeError) ∧
    black_scholes_option_price S K T r σ "Call" = Except.error optionTypeError ∧
    black_scholes_option_price S K T r σ "PUT" = Except.error optionTypeError ∧
    black_scholes_option_price S K T r σ " call " =
      Except.error optionTypeError := by
  have hgen : ∀ ot : String, ot ≠ "call" → ot ≠ "put" →
      black_scholes_option_price S K T r σ ot = Except.error optionTypeError := by
    intro ot hc hp
    have h := bs_eval_of_valid S K T r σ hS hK hT hσ ot
    rw [if_neg hc, if_neg hp] at h
    exact h
  exact ⟨hgen, hgen _ (by decide) (by decide), hgen _ (by decide) (by decide),
    hgen _ (by decide) (by decide)⟩

/-- Witness for C10 at the concrete valid input `S = K = T = σ = 1`, `r = 0`. -/
theorem option_type_exact_match_witness :
    (0:ℝ) < 1 ∧
    ((∀ ot : String, ot ≠ "call" → ot ≠ "put" →
       black_scholes_option_price 1 1 1 0 1 ot = Except.error optionTypeError) ∧
     black_scholes_option_price 1 1 1 0 1 "Call" = Except.error optionTypeError ∧
     black_scholes_option_price 1 1 1 0 1 "PUT" = Except.error optionTypeError ∧
     black_scholes_option_price 1 1 1 0 1 " call " =
       Except.error optionTypeError) :=
  ⟨one_pos, option_type_exact_match 1 1 1 0 1 one_pos one_pos one_pos one_pos⟩

lemma sqrt_two_pi_lb : (2.50662:ℝ) ≤ Real.sqrt (2 * Real.pi) := by
  rw [Real.le_sqrt (by norm_num) (by positivity)]
  nlinarith [Real.pi_gt_d6]

lemma sqrt_two_pi_ub : Real.sqrt (2 * Real.pi) ≤ (2.50663:ℝ) := by
  rw [Real.sqrt_le_left (by norm_num)]
  nlinarith [Real.pi_lt_d6]

lemma exp_quad_bound (t : ℝ) (h0 : 0 ≤ t) (h1 : t ≤ 1) :
    |Real.exp (-t^2/2) - (1 - t^2/2 + t^4/8)| ≤ t^6/36 := by
  have hx : |(-t^2/2 : ℝ)| ≤ 1 := by
    rw [abs_le]
    constructor <;> nlinarith
  have h := Real.exp_bound hx (n := 3) (by norm_num)
  have hsum : ∑ m ∈ Finset.range 3, (-t^2/2)^m / (m.factorial : ℝ) =
      1 - t^2/2 + t^4/8 := by
    simp [Finset.sum_range_succ, Nat.factorial]
    ring
  rw [hsum] at h
  have habs : |(-t^2/2 : ℝ)| = t^2/2 := by
    rw [abs_of_nonpos (by nlinarith)]
    ring
  rw [habs] at h
  refine h.trans (le_of_eq ?_)
  norm_num [Nat.factorial]
  try ring

lemma poly_main_integral (a : ℝ) :
    ∫ t in (0:ℝ)..a, (1 - t^2/2 + t^4/8) = a - a^3/6 + a^5/40 := by
  have i1 : IntervalIntegrable (fun _ : ℝ => (1:ℝ)) volume 0 a :=
    intervalIntegrable_const
  have i2 : IntervalIntegrable (fun t : ℝ => t^2/2) volume 0 a :=
    (((continuous_pow 2).div_const 2)).intervalIntegrable 0 a
  have i4 : IntervalIntegrable (fun t : ℝ => t^4/8) volume 0 a :=
    (((continuous_pow 4).div_const 8)).intervalIntegrable 0 a
  rw [intervalIntegral.integral_add (i1.sub i2) i4,
    intervalIntegral.integral_sub i1 i2,
    intervalIntegral.integral_div, intervalIntegral.integral_div,
    integral_pow, integral_pow]
  simp
  ring

lemma poly_err_integral (a : ℝ) :
    ∫ t in (0:ℝ)..a, t^6/36 = a^7/252 := by
  rw [intervalIntegral.integral_div, integral_pow]
  norm_num
  try ring

lemma gauss_int_bounds (a : ℝ) (h0 : 0 ≤ a) (h1 : a ≤ 1) :
    |(∫ t in (0:ℝ)..a, Real.exp (-t^2/2)) - (a - a^3/6 + a^5/40)| ≤ a^7/252 := by
  have cexp : Continuous (fun t : ℝ => Real.exp (-t^2/2)) :=
    Real.continuous_exp.comp ((continuous_pow 2).neg.div_const 2)
  have cpoly : Continuous (fun t : ℝ => 1 - t^2/2 + t^4/8) := by
    continuity
  have cerr : Continuous (fun t : ℝ => t^6/36) :=
    (continuous_pow 6).div_const 36
  have hlo : ∫ t in (0:ℝ)..a, (1 - t^2/2 + t^4/8 - t^6/36) ≤
      ∫ t in (0:ℝ)..a, Real.exp (-t^2/2) := by
    apply intervalIntegral.integral_mono_on h0
      ((cpoly.sub cerr).intervalIntegrable 0 a) (cexp.intervalIntegrable 0 a)
    intro t ht
    have hb := exp_quad_bound t ht.1 (ht.2.trans h1)
    have hb2 := abs_le.mp hb
    linarith [hb2.1]
  have hhi : ∫ t in (0:ℝ)..a, Real.exp (-t^2/2) ≤
      ∫ t in (0:ℝ)..a, (1 - t^2/2 + t^4/8 + t^6/36) := by
    apply intervalIntegral.integral_mono_on h0
      (cexp.intervalIntegrable 0 a) ((cpoly.add cerr).intervalIntegrable 0 a)
    intro t ht
    have hb := exp_quad_bound t ht.1 (ht.2.trans h1)
    have hb2 := abs_le.mp hb
    linarith [hb2.2]
  have e1 : ∫ t in (0:ℝ)..a, (1 - t^2/2 + t^4/8 - t^6/36) =
      (a - a^3/6 + a^5/40) - a^7/252 := by
    rw [intervalIntegral.integral_sub (cpoly.intervalIntegrable 0 a)
      (cerr.intervalIntegrable 0 a), poly_main_integral, poly_err_integral]
  have e2 : ∫ t in (0:ℝ)..a, (1 - t^2/2 + t^4/8 + t^6/36) =
      (a - a^3/6 + a^5/40) + a^7/252 := by
    rw [intervalIntegral.integral_add (cpoly.intervalIntegrable 0 a)
      (cerr.intervalIntegrable 0 a), poly_main_integral, poly_err_integral]
  rw [e1] at hlo
  rw [e2] at hhi
  rw [abs_le]
  constructor <;> linarith

lemma norm_cdf_eq_integral (a : ℝ) :
    norm_cdf a = 1/2 +
      (∫ t in (0:ℝ)..a, Real.exp (-t^2/2)) / Real.sqrt (2 * Real.pi) := by
  have h := norm_cdf_sub 0 a
  rw [norm_cdf_zero] at h
  have h2 : ∫ t in (0:ℝ)..a, gauss_pdf t =
      (∫ t in (0:ℝ)..a, Real.exp (-t^2/2)) / Real.sqrt (2 * Real.pi) := by
    unfold gauss_pdf
    rw [intervalIntegral.integral_div]
  rw [h2] at h
  linarith

lemma cdf_bounds_aux (a lo hi : ℝ) (h0 : 0 ≤ a) (h1 : a ≤ 1)
    (hlo : lo ≤ a - a^3/6 + a^5/40 - a^7/252) (hlo0 : 0 ≤ lo)
    (hhi : a - a^3/6 + a^5/40 + a^7/252 ≤ hi) :
    1/2 + lo/2.50663 ≤ norm_cdf a ∧ norm_cdf a ≤ 1/2 + hi/2.50662 := by
  have hI := abs_le.mp (gauss_int_bounds a h0 h1)
  have hIlo : lo ≤ ∫ t in (0:ℝ)..a, Real.exp (-t^2/2) := by linarith [hI.1]
  have hIhi : (∫ t in (0:ℝ)..a, Real.exp (-t^2/2)) ≤ hi := by linarith [hI.2]
  have hI0 : (0:ℝ) ≤ ∫ t in (0:ℝ)..a, Real.exp (-t^2/2) := le_trans hlo0 hIlo
  have hspos : (0:ℝ) < Real.sqrt (2 * Real.pi) := by positivity
  rw [norm_cdf_eq_integral]
  constructor
  · have h := div_le_div₀ hI0 hIlo hspos sqrt_two_pi_ub
    linarith
  · have h := div_le_div₀ (le_trans hI0 hIhi) hIhi (by norm_num) sqrt_two_pi_lb
    linarith

lemma norm_cdf_035_bounds :
    (0.63683:ℝ) ≤ norm_cdf 0.35 ∧ norm_cdf 0.35 ≤ 0.636834 := by
  have h := cdf_bounds_aux 0.35 0.3429829 0.3429881 (by norm_num) (by norm_num)
    (by norm_num) (by norm_num) (by norm_num)
  constructor
  · have hn : (0.63683:ℝ) ≤ 1/2 + 0.3429829/2.50663 := by norm_num
    linarith [h.1]
  · have hn : (1/2 + 0.3429881/2.50662 : ℝ) ≤ 0.636834 := by norm_num
    linarith [h.2]

lemma norm_cdf_015_bounds :
    (0.559617:ℝ) ≤ norm_cdf 0.15 ∧ norm_cdf 0.15 ≤ 0.559618 := by
  have h := cdf_bounds_aux 0.15 0.1494393 0.1494395 (by norm_num) (by norm_num)
    (by norm_num) (by norm_num) (by norm_num)
  constructor
  · have hn : (0.559617:ℝ) ≤ 1/2 + 0.1494393/2.50663 := by norm_num
    linarith [h.1]
  · have hn : (1/2 + 0.1494395/2.50662 : ℝ) ≤ 0.559618 := by norm_num
    linarith [h.2]

lemma exp_neg005_bounds :
    (0.9512288:ℝ) ≤ Real.exp (-0.05) ∧ Real.exp (-0.05) ≤ 0.9512295 := by
  have hx : |(-0.05:ℝ)| ≤ 1 := by rw [abs_le]; norm_num
  have h := Real.exp_bound hx (n := 4) (by norm_num)
  norm_num [Finset.sum_range_succ, Nat.factorial, abs_le, abs_of_nonneg] at h
  rw [show (-0.05 : ℝ) = -(1/20) by norm_num]
  constructor <;> linarith [h.1, h.2]

lemma d1_c8 : d1 100 100 1 0.05 0.2 = 0.35 := by
  unfold d1
  rw [show (100:ℝ)/100 = 1 by norm_num, Real.log_one, Real.sqrt_one]
  norm_num

lemma d2_c8 : d2 100 100 1 0.05 0.2 = 0.15 := by
  unfold d2
  rw [d1_c8, Real.sqrt_one]
  norm_num

/-- C8: at the benchmark input `S = 100`, `K = 100`, `T = 1`, `r = 0.05`,
`σ = 0.2` the pricing operation returns a call price within 0.01 of 10.45
and a put price within 0.01 of 5.57. -/
theorem benchmark_prices :
    ∃ c p : ℝ,
      black_scholes_option_price 100 100 1 0.05 0.2 "call" = Except.ok c ∧
      black_scholes_option_price 100 100 1 0.05 0.2 "put" = Except.ok p ∧
      |c - 10.45| ≤ 0.01 ∧ |p - 5.57| ≤ 0.01 := by
  refine ⟨_, _,
    bs_call_eq 100 100 1 0.05 0.2 (by norm_num) (by norm_num) (by norm_num)
      (by norm_num),
    bs_put_eq 100 100 1 0.05 0.2 (by norm_num) (by norm_num) (by norm_num)
      (by norm_num), ?_, ?_⟩
  · rw [d1_c8, d2_c8, show ((-0.05:ℝ) * 1) = (-0.05:ℝ) by norm_num]
    have hc35 := norm_cdf_035_bounds
    have hc15 := norm_cdf_015_bounds
    have he := exp_neg005_bounds
    have hp1 : Real.exp (-0.05) * norm_cdf 0.15 ≤ 0.9512295 * 0.559618 :=
      mul_le_mul he.2 hc15.2 (norm_cdf_nonneg _) (by norm_num)
    have hp2 : (0.9512288:ℝ) * 0.559617 ≤ Real.exp (-0.05) * norm_cdf 0.15 :=
      mul_le_mul he.1 hc15.1 (by norm_num) (Real.exp_pos _).le
    rw [abs_le]
    constructor <;> nlinarith [hp1, hp2, hc35.1, hc35.2]
  · rw [d1_c8, d2_c8, show ((-0.05:ℝ) * 1) = (-0.05:ℝ) by norm_num,
      norm_cdf_reflect, norm_cdf_reflect]
    have hc35 := norm_cdf_035_bounds
    have hc15 := norm_cdf_015_bounds
    have he := exp_neg005_bounds
    have hq1 : Real.exp (-0.05) * (1 - norm_cdf 0.15) ≤
        0.9512295 * (1 - 0.559617) :=
      mul_le_mul he.2 (by linarith [hc15.1])
        (by linarith [norm_cdf_le_one 0.15]) (by norm_num)
    have hq2 : (0.9512288:ℝ) * (1 - 0.559618) ≤
        Real.exp (-0.05) * (1 - norm_cdf 0.15) :=
      mul_le_mul he.1 (by linarith [hc15.2]) (by norm_num) (Real.exp_pos _).le
    rw [abs_le]
    constructor <;> nlinarith [hq1, hq2, hc35.1, hc35.2]
